import Mathlib

/-
Verification development for the Engbot vocabulary scraping bot
(src/Engbot.py).  The module-level script is embedded shallowly:

  * the HTTP layer is abstracted into a `Provider` that, for each word,
    either fails (`none`, covering transport exceptions and non-success
    HTTP statuses) or returns the parsed page content;
  * the BeautifulSoup queries are modelled by the page structures
    `InfoPage` and `ThesaurusPage`, which record exactly the pieces of
    markup the script reads (the related-words container, the definition
    blocks, the synonym and antonym sections);
  * the module-level mutable globals (`used_words`, the three record
    collections) become fields of an explicit `TraversalState` that is
    threaded through the loop;
  * the `while` loop of the main topic loop becomes the fuel-indexed
    structurally recursive function `topicLoop`.

Line numbers in comments refer to src/Engbot.py.
-/

/-! ## Configuration constants (lines 8, 20-58) -/

def WORD_COUNT : Nat := 10000

def topics : List String :=
  ["Preserving Our Heritage",
   "Education Options for School-Leavers",
   "Becoming Independent",
   "Social Issues",
   "The Ecosystem"]

/-- Line 29; declared by the script but never used by the traversal logic. -/
def stop_words : List String :=
  ["our", "for", "the", "and", "of", "to", "in", "a", "an", "options", "becoming"]

/-- Lines 32-58: the hard-coded candidate words for each topic, as an
association list mirroring the Python dict. -/
def candidate_words : List (String × List String) :=
  [("Preserving Our Heritage",
    ["old", "past", "tradition", "culture", "custom", "legacy", "memory",
     "history", "heritage", "old-fashioned", "ancestry", "roots", "folklore",
     "relic", "museum", "antique", "preservation", "conservation", "time", "story"]),
   ("Education Options for School-Leavers",
    ["school", "college", "job", "training", "internship", "trade", "study",
     "courses", "classes", "program", "career", "skills", "diploma", "degree",
     "exam", "workshop", "tutoring", "mentorship", "online", "campus"]),
   ("Becoming Independent",
    ["alone", "self", "free", "grown-up", "adult", "responsible", "choice",
     "decide", "self-help", "standalone", "budget", "work", "money", "planning",
     "cooking", "cleaning", "driving", "renting", "saving", "support"]),
   ("Social Issues",
    ["poverty", "racism", "unfairness", "crime", "homeless", "health", "drugs",
     "violence", "discrimination", "rights", "hunger", "waste", "education", "family",
     "income", "gap", "abuse", "bullying", "justice", "community"]),
   ("The Ecosystem",
    ["nature", "plants", "animals", "water", "air", "earth", "forest", "trees",
     "rivers", "pollution", "soil", "climate", "wildlife", "ocean", "grass",
     "ecosystem", "habitat", "species", "weather", "recycle"])]

/-! ## Page models

`InfoPage` models what `scrape_cambridge_info` reads from a successfully
fetched dictionary page: the optional related-words container
(`soup.find("div", class_="daccord_lb")`), whose `<li>` elements each
optionally contain an `<a>` element that optionally carries a `title`
attribute (hence `Option (Option String)` per `<li>`), and the list of
extracted texts of the `div.def.ddef_d.db` definition elements.

`ThesaurusPage` models what `scrape_cambridge_thesaurus` reads: the
optional synonyms section (header found and followed by a `div.tlcs`
sibling) as a list of items, each item optionally containing an `<a>`
that optionally contains a `<span>` with its extracted text; likewise
for the antonyms section. -/

structure InfoPage where
  daccord_lb : Option (List (Option (Option String)))
  ddef_d : List String
deriving DecidableEq

structure ThesaurusPage where
  synItems : Option (List (Option (Option String)))
  antItems : Option (List (Option (Option String)))
deriving DecidableEq

/-- The external HTTP layer: for each word, the primary dictionary fetch
(lines 79-90) and the thesaurus fetch (lines 125-136).  `none` covers a
transport exception or a non-success HTTP status. -/
structure Provider where
  infoResp : String → Option InfoPage
  thesResp : String → Option ThesaurusPage

/-! ## String normalization

Python `.lower()` and `.strip()` are modelled character-structurally
(the inputs here are ASCII word tokens), so that all definitions reduce
inside the kernel. -/

/-- Python `str.lower()`. -/
def strLower (s : String) : String := String.mk (s.data.map Char.toLower)

/-- The whitespace predicate of Python `str.strip()`. -/
def isSpaceChar (c : Char) : Bool := c = ' ' || c = '\t' || c = '\n' || c = '\r'

/-- Python `str.strip()`: drop leading and trailing whitespace. -/
def strTrim (s : String) : String :=
  String.mk (((s.data.dropWhile isSpaceChar).reverse.dropWhile isSpaceChar).reverse)

/-! ## scrape_cambridge_info (lines 69-114) -/

/-- Lines 95-102: the loop over the `<li>` elements of the related-words
container.  For each `<li>` with an `<a>` carrying a `title` attribute,
the title is stripped and lower-cased; it is appended when it is
non-empty, not in the global `used_words`, and different from the
lower-cased queried word. -/
def collectRelated (used_words : List String) (word_lower : String) :
    List (Option (Option String)) → List String
  | [] => []
  | li :: rest =>
    match li with
    | some (some title) =>
      let candidate_word := strLower (strTrim title)
      if candidate_word ≠ "" ∧ candidate_word ∉ used_words ∧ candidate_word ≠ word_lower
      then candidate_word :: collectRelated used_words word_lower rest
      else collectRelated used_words word_lower rest
    | _ => collectRelated used_words word_lower rest

/-- Lines 69-114.  On a failed request (`none` response) both result
lists are empty (lines 83-88); on a missing related-words container the
related list is empty (lines 93, 103-104); definitions are the
non-empty extracted texts of the definition elements (lines 107-112).
The function reads the global `used_words`, passed explicitly here. -/
def scrape_cambridge_info (used_words : List String) (word : String)
    (response : Option InfoPage) : List String × List String :=
  match response with
  | none => ([], [])
  | some page =>
    let related :=
      match page.daccord_lb with
      | some li_elements => collectRelated used_words (strLower word) li_elements
      | none => []
    let definitions := page.ddef_d.filter (fun text => text ≠ "")
    (related, definitions)

/-! ## scrape_cambridge_thesaurus (lines 116-172) -/

/-- Lines 144-151 (and identically 161-168): the loop over the items of a
synonym or antonym container.  Each item with an `<a>` containing a
`<span>` contributes its stripped, lower-cased text, appended when
non-empty and not already collected. -/
def collectThesaurus (acc : List String) :
    List (Option (Option String)) → List String
  | [] => acc
  | item :: rest =>
    match item with
    | some (some txt) =>
      let candidate_word := strLower (strTrim txt)
      if candidate_word ≠ "" ∧ candidate_word ∉ acc
      then collectThesaurus (acc ++ [candidate_word]) rest
      else collectThesaurus acc rest
    | _ => collectThesaurus acc rest

/-- Lines 116-172.  On a failed request both lists are empty (lines
129-134); a missing synonyms or antonyms section yields an empty
corresponding list (lines 152-153, 169-170). -/
def scrape_cambridge_thesaurus (response : Option ThesaurusPage) :
    List String × List String :=
  match response with
  | none => ([], [])
  | some page =>
    let synonyms :=
      match page.synItems with
      | some items => collectThesaurus [] items
      | none => []
    let antonyms :=
      match page.antItems with
      | some items => collectThesaurus [] items
      | none => []
    (synonyms, antonyms)

/-! ## create_quiz_item (lines 174-202) -/

structure QuizItem where
  questionText : String
  questionType : String
  option1 : String
  option2 : String
  option3 : String
  option4 : String
  option5 : String
  correctAnswer : String
  timeInSeconds : String
  imageLink : String
  answerExplanation : String
deriving DecidableEq

/-- Line 189. -/
def question_text (candidate_word : String) : String :=
  "Which of the following is a synonym for \x27" ++ candidate_word ++ "\x27?"

/-- Line 201. -/
def answer_explanation (correct candidate_word topic : String) : String :=
  "The word \x27" ++ correct ++ "\x27 is a synonym for \x27" ++ candidate_word ++
    "\x27 (Topic: " ++ topic ++ ")."

/-- Lines 185-187: `options = related_synonyms[:5]` followed by the
`while len(options) < 5: options.append("")` loop, whose effect is to
append exactly `5 - len(options)` empty strings (the slice makes a copy,
so `related_synonyms` itself is never modified). -/
def padOptions (options : List String) : List String :=
  options ++ List.replicate (5 - options.length) ""

/-- Lines 174-202: returns `none` when `related_synonyms` is empty
(lines 181-183); otherwise the first related word is the correct answer
and the option list is the padded 5-element slice. -/
def create_quiz_item (topic candidate_word : String)
    (related_synonyms : List String) : Option QuizItem :=
  match related_synonyms with
  | [] => none
  | correct :: _ =>
    let options := padOptions (related_synonyms.take 5)
    some
      { questionText := question_text candidate_word
        questionType := "Multiple Choice"
        option1 := options.getD 0 ""
        option2 := options.getD 1 ""
        option3 := options.getD 2 ""
        option4 := options.getD 3 ""
        option5 := options.getD 4 ""
        correctAnswer := "1"
        timeInSeconds := "30"
        imageLink := ""
        answerExplanation := answer_explanation correct candidate_word topic }

/-! ## The traversal state (lines 60-63) and the main loop (lines 209-257) -/

structure ThesaurusItem where
  word : String
  topic : String
  synonyms : String
  antonyms : String
deriving DecidableEq

structure DefinitionItem where
  word : String
  topic : String
  definition : String
deriving DecidableEq

/-- The mutable module-level state of the script: `used_words` (line 60,
a Python set, modelled as a duplicate-free list via `List.insert`),
the three record collections (lines 61-63), the processing log (one
entry per accepted candidate, mirroring the `logging.info` call at
line 218 and giving the processing order), and the `candidate_words`
configuration dict, carried in the state so that preservation of the
configuration across the run is expressible. -/
structure TraversalState where
  usedWords : List String
  quizItems : List QuizItem
  thesaurusItems : List ThesaurusItem
  definitionsItems : List DefinitionItem
  processedLog : List (String × String)
  candidateWords : List (String × List String)
deriving DecidableEq

/-- Lines 218-254: the body of the main loop for one accepted candidate
word.  Returns the updated state and `new_related` (which the caller
appends to the queue, line 230).  Note that `used_words.add(candidate)`
is executed at line 221, before the scrape (whose related-word filter
reads the global set), and redundantly again at line 229. -/
def processCandidate (pv : Provider) (topic candidate : String)
    (st : TraversalState) : TraversalState × List String :=
  let used1 := st.usedWords.insert candidate
  let infoResult := scrape_cambridge_info used1 candidate (pv.infoResp candidate)
  let related_words := infoResult.1
  let definitions := infoResult.2
  let new_related := related_words.filter (fun w => w ∉ used1)
  let used2 := used1.insert candidate
  let quizItems2 :=
    match create_quiz_item topic candidate new_related with
    | some item => st.quizItems ++ [item]
    | none => st.quizItems
  let thesResult := scrape_cambridge_thesaurus (pv.thesResp candidate)
  let syns := thesResult.1
  let ants := thesResult.2
  let thesaurusItems2 :=
    if syns ≠ [] ∨ ants ≠ [] then
      st.thesaurusItems ++
        [{ word := candidate, topic := topic,
           synonyms := String.intercalate ", " syns,
           antonyms := String.intercalate ", " ants }]
    else st.thesaurusItems
  let definitionsItems2 :=
    if definitions ≠ [] then
      st.definitionsItems ++
        [{ word := candidate, topic := topic,
           definition := String.intercalate " | " definitions }]
    else st.definitionsItems
  ({ usedWords := used2
     quizItems := quizItems2
     thesaurusItems := thesaurusItems2
     definitionsItems := definitionsItems2
     processedLog := st.processedLog ++ [(topic, candidate)]
     candidateWords := st.candidateWords }, new_related)

/-- Lines 214-230: `while queue and topic_used_words < (WORD_COUNT/5)`.
In Python `WORD_COUNT/5` is the true-division value `2000.0`, and for a
natural counter `t` the comparison `t < 2000.0` coincides with
`t < WORD_COUNT / 5` in natural-number division since `5` divides
`WORD_COUNT` exactly.  The loop is embedded with a fuel argument; fuel
exhaustion returns the current state unchanged, and a separate theorem
shows the result is stable once the fuel exceeds an explicit bound.
A popped candidate that is already in `used_words` is skipped (lines
216-217) without touching the state or the counter. -/
def topicLoop (pv : Provider) (topic : String) :
    Nat → List String → Nat → TraversalState → TraversalState × Nat
  | 0, _, topic_used_words, st => (st, topic_used_words)
  | _ + 1, [], topic_used_words, st => (st, topic_used_words)
  | fuel + 1, candidate :: rest, topic_used_words, st =>
    if topic_used_words < WORD_COUNT / 5 then
      if candidate ∈ st.usedWords then
        topicLoop pv topic fuel rest topic_used_words st
      else
        let step := processCandidate pv topic candidate st
        topicLoop pv topic fuel (rest ++ step.2) (topic_used_words + 1) step.1
    else (st, topic_used_words)

/-- Lines 209-212: one iteration of the outer `for topic in topics` loop.
The queue is initialized from `candidate_words.get(topic, []).copy()`;
the `.copy()` means all queue mutation acts on a fresh list, which the
embedding reflects by leaving `candidateWords` untouched in the state. -/
def runTopic (pv : Provider) (fuel : Nat) (st : TraversalState)
    (topic : String) : TraversalState :=
  let queue := (st.candidateWords.lookup topic).getD []
  (topicLoop pv topic fuel queue 0 st).1

/-- Lines 209-257: the whole traversal over all topics. -/
def runAll (pv : Provider) (fuel : Nat) (st : TraversalState) : TraversalState :=
  topics.foldl (runTopic pv fuel) st

/-- The state at script start (lines 60-63): all collections empty, the
configuration as loaded. -/
def initialState : TraversalState :=
  { usedWords := []
    quizItems := []
    thesaurusItems := []
    definitionsItems := []
    processedLog := []
    candidateWords := candidate_words }

/-- An empty state with empty configuration, used for small concrete
scenarios. -/
def emptyState : TraversalState :=
  { usedWords := []
    quizItems := []
    thesaurusItems := []
    definitionsItems := []
    processedLog := []
    candidateWords := [] }

/-! ## Basic lemmas about the loop and the step -/

theorem topicLoop_nil (pv : Provider) (tp : String) (fuel t : Nat)
    (st : TraversalState) : topicLoop pv tp fuel [] t st = (st, t) := by
  cases fuel <;> rfl

theorem topicLoop_zero (pv : Provider) (tp : String) (q : List String)
    (t : Nat) (st : TraversalState) : topicLoop pv tp 0 q t st = (st, t) := rfl

theorem topicLoop_cons (pv : Provider) (tp : String) (fuel t : Nat)
    (c : String) (rest : List String) (st : TraversalState) :
    topicLoop pv tp (fuel + 1) (c :: rest) t st =
      if t < WORD_COUNT / 5 then
        if c ∈ st.usedWords then
          topicLoop pv tp fuel rest t st
        else
          topicLoop pv tp fuel (rest ++ (processCandidate pv tp c st).2) (t + 1)
            (processCandidate pv tp c st).1
      else (st, t) := rfl

theorem topicLoop_stop (pv : Provider) (tp : String) (fuel t : Nat)
    (q : List String) (st : TraversalState) (h : ¬ t < WORD_COUNT / 5) :
    topicLoop pv tp (fuel + 1) q t st = (st, t) := by
  cases q with
  | nil => rfl
  | cons c rest => rw [topicLoop_cons, if_neg h]

theorem topicLoop_skip (pv : Provider) (tp : String) (fuel t : Nat)
    (c : String) (rest : List String) (st : TraversalState)
    (hq : t < WORD_COUNT / 5) (hc : c ∈ st.usedWords) :
    topicLoop pv tp (fuel + 1) (c :: rest) t st = topicLoop pv tp fuel rest t st := by
  rw [topicLoop_cons, if_pos hq, if_pos hc]

theorem topicLoop_accept (pv : Provider) (tp : String) (fuel t : Nat)
    (c : String) (rest : List String) (st : TraversalState)
    (hq : t < WORD_COUNT / 5) (hc : c ∉ st.usedWords) :
    topicLoop pv tp (fuel + 1) (c :: rest) t st =
      topicLoop pv tp fuel (rest ++ (processCandidate pv tp c st).2) (t + 1)
        (processCandidate pv tp c st).1 := by
  rw [topicLoop_cons, if_pos hq, if_neg hc]

theorem processCandidate_usedWords (pv : Provider) (tp c : String)
    (st : TraversalState) :
    (processCandidate pv tp c st).1.usedWords = st.usedWords.insert c := by
  simp only [processCandidate]
  exact List.insert_of_mem (List.mem_insert_self c st.usedWords)

theorem processCandidate_processedLog (pv : Provider) (tp c : String)
    (st : TraversalState) :
    (processCandidate pv tp c st).1.processedLog = st.processedLog ++ [(tp, c)] := by
  simp only [processCandidate]

theorem processCandidate_candidateWords (pv : Provider) (tp c : String)
    (st : TraversalState) :
    (processCandidate pv tp c st).1.candidateWords = st.candidateWords := by
  simp only [processCandidate]

/-- The `new_related` value returned by the loop body is the related list
of the scrape, filtered against the seen set as it stands after the
candidate itself was inserted (lines 221, 225-226). -/
theorem processCandidate_newRelated (pv : Provider) (tp c : String)
    (st : TraversalState) :
    (processCandidate pv tp c st).2 =
      (scrape_cambridge_info (st.usedWords.insert c) c (pv.infoResp c)).1.filter
        (fun w => w ∉ st.usedWords.insert c) := by
  simp only [processCandidate]

theorem topicLoop_candidateWords (pv : Provider) (tp : String) :
    ∀ (fuel : Nat) (q : List String) (t : Nat) (st : TraversalState),
      (topicLoop pv tp fuel q t st).1.candidateWords = st.candidateWords := by
  intro fuel
  induction fuel with
  | zero => intro q t st; rfl
  | succ fuel ih =>
    intro q t st
    cases q with
    | nil => rfl
    | cons c rest =>
      rw [topicLoop_cons]
      by_cases hq : t < WORD_COUNT / 5
      · rw [if_pos hq]
        by_cases hc : c ∈ st.usedWords
        · rw [if_pos hc, ih]
        · rw [if_neg hc, ih, processCandidate_candidateWords]
      · rw [if_neg hq]

theorem runTopic_candidateWords (pv : Provider) (fuel : Nat)
    (st : TraversalState) (tp : String) :
    (runTopic pv fuel st tp).candidateWords = st.candidateWords := by
  unfold runTopic
  exact topicLoop_candidateWords pv tp fuel _ 0 st

theorem foldl_runTopic_candidateWords (pv : Provider) (fuel : Nat) :
    ∀ (ts : List String) (st : TraversalState),
      (ts.foldl (runTopic pv fuel) st).candidateWords = st.candidateWords := by
  intro ts
  induction ts with
  | nil => intro st; rfl
  | cons tp ts ih =>
    intro st
    rw [List.foldl_cons, ih, runTopic_candidateWords]

/-- C9: Configuration frame.  The traversal never mutates the configured
topics or their seed-word lists: the per-topic frontier is a copy of the
seed list and all pops and appends act on that copy, so after the whole
run the `candidate_words` configuration held in the state is exactly its
value at configuration load.  In particular a run started from the
script's initial state ends with the hard-coded configuration intact. -/
theorem c9_configuration_frame (pv : Provider) (fuel : Nat) :
    (∀ st : TraversalState, (runAll pv fuel st).candidateWords = st.candidateWords) ∧
      (runAll pv fuel initialState).candidateWords = candidate_words := by
  constructor
  · intro st
    unfold runAll
    exact foldl_runTopic_candidateWords pv fuel topics st
  · unfold runAll
    rw [foldl_runTopic_candidateWords]
    rfl

/-! ## Properties of the related-words collection -/

/-- Every word collected from the related-words container is non-empty,
outside the seen set the scrape was given, and different from the
lower-cased queried word (the line 101 filter). -/
theorem mem_collectRelated (used : List String) (wl : String) :
    ∀ (lis : List (Option (Option String))) (x : String),
      x ∈ collectRelated used wl lis → x ≠ "" ∧ x ∉ used ∧ x ≠ wl := by
  intro lis
  induction lis with
  | nil => intro x hx; simp [collectRelated] at hx
  | cons li rest ih =>
    intro x hx
    rcases li with _ | _ | title
    · exact ih x hx
    · exact ih x hx
    · simp only [collectRelated] at hx
      split at hx
      · rcases List.mem_cons.mp hx with h | h
        · subst h; assumption
        · exact ih x h
      · exact ih x hx

theorem mem_scrape_related (used : List String) (word : String)
    (resp : Option InfoPage) (x : String)
    (hx : x ∈ (scrape_cambridge_info used word resp).1) :
    x ≠ "" ∧ x ∉ used ∧ x ≠ strLower word := by
  rcases resp with _ | page
  · simp [scrape_cambridge_info] at hx
  · simp only [scrape_cambridge_info] at hx
    rcases h : page.daccord_lb with _ | lis
    · rw [h] at hx; simp at hx
    · rw [h] at hx
      exact mem_collectRelated used (strLower word) lis x hx

def runPage : InfoPage := { daccord_lb := some [some (some "Run")], ddef_d := [] }

/-- C7: Self-loop suppression.  The primary lookup never returns an
entry equal to the lower-casing of the queried word (all its entries are
lower-cased before the comparison, so this is the case-insensitive
exclusion of line 101), and in fact never returns an entry that is in
the seen set it was given; a provider page for "run" listing "Run"
yields no related entry at all; and independently, the traversal's
`new_related` filter (line 226) can never let the processed word
through, because the word was inserted into the seen set (line 221)
before the lookup and the filter. -/
theorem c7_self_loop_suppression (pv : Provider) (tp : String) :
    (∀ (used : List String) (word : String) (resp : Option InfoPage),
        strLower word ∉ (scrape_cambridge_info used word resp).1) ∧
    (∀ (used : List String) (word : String) (resp : Option InfoPage) (x : String),
        x ∈ (scrape_cambridge_info used word resp).1 → x ∉ used) ∧
    (∀ (c : String) (st : TraversalState), c ∉ (processCandidate pv tp c st).2) ∧
    (scrape_cambridge_info [] "run" (some runPage)).1 = [] := by
  refine ⟨?_, ?_, ?_, by decide⟩
  · intro used word resp hmem
    exact (mem_scrape_related used word resp _ hmem).2.2 rfl
  · intro used word resp x hx
    exact (mem_scrape_related used word resp x hx).2.1
  · intro c st hmem
    rw [processCandidate_newRelated] at hmem
    have := List.mem_filter.mp hmem
    rw [decide_eq_true_eq] at this
    exact this.2 (List.mem_insert_self c st.usedWords)

def pageC : InfoPage := { daccord_lb := some [some (some "c")], ddef_d := [] }

/-- Witness for `c7_self_loop_suppression`: the second conjunct applied
at a concrete seen set, word and page. -/
theorem c7_self_loop_suppression_witness :
    ("c" ∈ (scrape_cambridge_info ["u"] "w" (some pageC)).1) ∧ "c" ∉ ["u"] := by
  refine ⟨by decide, ?_⟩
  exact (c7_self_loop_suppression { infoResp := fun _ => none, thesResp := fun _ => none }
    "T").2.1 ["u"] "w" (some pageC) "c" (by decide)

/-! ## Quiz builder structure -/

theorem padOptions_length (xs : List String) (h : xs.length ≤ 5) :
    (padOptions xs).length = 5 := by
  simp only [padOptions, List.length_append, List.length_replicate]
  omega

theorem getD_length_five (xs : List String) (h : xs.length = 5) :
    [xs.getD 0 "", xs.getD 1 "", xs.getD 2 "", xs.getD 3 "", xs.getD 4 ""] = xs := by
  rcases xs with _ | ⟨a, _ | ⟨b, _ | ⟨c, _ | ⟨d, _ | ⟨e, rest⟩⟩⟩⟩⟩ <;>
    simp_all [List.length_eq_zero]

/-- C5: QuizRecord structure.  For a non-empty `newRelated` list the
builder produces a record whose five option fields are exactly the first
5 entries of the list right-padded with empty strings to length 5, whose
first option (the position named by the constant correct-answer index
"1") is `newRelated[0]`, with question type "Multiple Choice", time
"30", an empty image link, and an explanation that contains both the
correct word and the topic as substrings; the builder never shuffles. -/
theorem c5_quiz_record_structure (topic w : String) (l : List String) (h : l ≠ []) :
    ∃ q : QuizItem, create_quiz_item topic w l = some q ∧
      [q.option1, q.option2, q.option3, q.option4, q.option5] =
        l.take 5 ++ List.replicate (5 - (l.take 5).length) "" ∧
      (l.take 5 ++ List.replicate (5 - (l.take 5).length) "").length = 5 ∧
      q.option1 = l.head h ∧
      q.correctAnswer = "1" ∧
      q.questionType = "Multiple Choice" ∧
      q.timeInSeconds = "30" ∧
      q.imageLink = "" ∧
      q.questionText = question_text w ∧
      q.answerExplanation = answer_explanation (l.head h) w topic ∧
      (∃ u v, q.answerExplanation = u ++ (l.head h ++ v)) ∧
      (∃ u v, q.answerExplanation = u ++ (topic ++ v)) := by
  rcases l with _ | ⟨r, rs⟩
  · exact absurd rfl h
  · have hlen : ((r :: rs).take 5).length ≤ 5 := by
      exact List.length_take_le 5 (r :: rs)
    refine ⟨_, rfl, ?_, ?_, ?_, rfl, rfl, rfl, rfl, rfl, rfl, ?_, ?_⟩
    · exact getD_length_five _ (padOptions_length _ hlen)
    · exact padOptions_length _ hlen
    · simp [padOptions, List.take_succ_cons, List.getD]
    · refine ⟨"The word \x27",
        "\x27 is a synonym for \x27" ++ w ++ "\x27 (Topic: " ++ topic ++ ").", ?_⟩
      simp [answer_explanation, String.append_assoc]
    · refine ⟨"The word \x27" ++ r ++ "\x27 is a synonym for \x27" ++ w ++
        "\x27 (Topic: ", ").", ?_⟩
      simp [answer_explanation, String.append_assoc]

/-- Witness for `c5_quiz_record_structure` at topic "T", word "w",
list ["x", "y"]. -/
theorem c5_quiz_record_structure_witness :
    (["x", "y"] ≠ ([] : List String)) ∧
    ∃ q : QuizItem, create_quiz_item "T" "w" ["x", "y"] = some q ∧
      [q.option1, q.option2, q.option3, q.option4, q.option5] =
        ["x", "y"].take 5 ++ List.replicate (5 - (["x", "y"].take 5).length) "" ∧
      (["x", "y"].take 5 ++ List.replicate (5 - (["x", "y"].take 5).length) "").length = 5 ∧
      q.option1 = ["x", "y"].head (by decide) ∧
      q.correctAnswer = "1" ∧
      q.questionType = "Multiple Choice" ∧
      q.timeInSeconds = "30" ∧
      q.imageLink = "" ∧
      q.questionText = question_text "w" ∧
      q.answerExplanation = answer_explanation (["x", "y"].head (by decide)) "w" "T" ∧
      (∃ u v, q.answerExplanation = u ++ (["x", "y"].head (by decide) ++ v)) ∧
      (∃ u v, q.answerExplanation = u ++ ("T" ++ v)) :=
  ⟨by decide, c5_quiz_record_structure "T" "w" ["x", "y"] (by decide)⟩

/-! ## Record construction in the loop body -/

theorem processCandidate_quizItems (pv : Provider) (tp c : String)
    (st : TraversalState) :
    (processCandidate pv tp c st).1.quizItems =
      match create_quiz_item tp c (processCandidate pv tp c st).2 with
      | some item => st.quizItems ++ [item]
      | none => st.quizItems := rfl

theorem processCandidate_thesaurusItems (pv : Provider) (tp c : String)
    (st : TraversalState) :
    (processCandidate pv tp c st).1.thesaurusItems =
      if (scrape_cambridge_thesaurus (pv.thesResp c)).1 ≠ [] ∨
          (scrape_cambridge_thesaurus (pv.thesResp c)).2 ≠ [] then
        st.thesaurusItems ++
          [{ word := c, topic := tp,
             synonyms := String.intercalate ", " (scrape_cambridge_thesaurus (pv.thesResp c)).1,
             antonyms := String.intercalate ", " (scrape_cambridge_thesaurus (pv.thesResp c)).2 }]
      else st.thesaurusItems := rfl

theorem processCandidate_definitionsItems (pv : Provider) (tp c : String)
    (st : TraversalState) :
    (processCandidate pv tp c st).1.definitionsItems =
      if (scrape_cambridge_info (st.usedWords.insert c) c (pv.infoResp c)).2 ≠ [] then
        st.definitionsItems ++
          [{ word := c, topic := tp,
             definition := String.intercalate " | "
               (scrape_cambridge_info (st.usedWords.insert c) c (pv.infoResp c)).2 }]
      else st.definitionsItems := rfl

theorem append_singleton_ne {α : Type} (l : List α) (x : α) : l ++ [x] ≠ l := by
  intro h
  have := congrArg List.length h
  simp at this

theorem create_quiz_item_eq_none (t w : String) (l : List String) :
    create_quiz_item t w l = none ↔ l = [] := by
  cases l <;> simp [create_quiz_item]

/-- C6: Record omission and field joining.  In the loop body for one
processed word: a QuizRecord is appended iff `new_related` is non-empty;
a ThesaurusRecord is appended iff the synonym or antonym list is
non-empty, with the two lists each joined by ", "; a DefinitionRecord is
appended iff the definitions list is non-empty, with the definitions
joined by " | ". -/
theorem c6_record_omission_and_joining (pv : Provider) (tp c : String)
    (st : TraversalState) :
    (∀ (t w : String) (l : List String), create_quiz_item t w l = none ↔ l = []) ∧
    ((processCandidate pv tp c st).1.quizItems = st.quizItems ↔
      (processCandidate pv tp c st).2 = []) ∧
    ((processCandidate pv tp c st).2 ≠ [] →
      ∃ q, create_quiz_item tp c (processCandidate pv tp c st).2 = some q ∧
        (processCandidate pv tp c st).1.quizItems = st.quizItems ++ [q]) ∧
    ((processCandidate pv tp c st).1.thesaurusItems = st.thesaurusItems ↔
      ((scrape_cambridge_thesaurus (pv.thesResp c)).1 = [] ∧
        (scrape_cambridge_thesaurus (pv.thesResp c)).2 = [])) ∧
    (¬ ((scrape_cambridge_thesaurus (pv.thesResp c)).1 = [] ∧
          (scrape_cambridge_thesaurus (pv.thesResp c)).2 = []) →
      (processCandidate pv tp c st).1.thesaurusItems = st.thesaurusItems ++
        [{ word := c, topic := tp,
           synonyms := String.intercalate ", " (scrape_cambridge_thesaurus (pv.thesResp c)).1,
           antonyms := String.intercalate ", " (scrape_cambridge_thesaurus (pv.thesResp c)).2 }]) ∧
    ((processCandidate pv tp c st).1.definitionsItems = st.definitionsItems ↔
      (scrape_cambridge_info (st.usedWords.insert c) c (pv.infoResp c)).2 = []) ∧
    ((scrape_cambridge_info (st.usedWords.insert c) c (pv.infoResp c)).2 ≠ [] →
      (processCandidate pv tp c st).1.definitionsItems = st.definitionsItems ++
        [{ word := c, topic := tp,
           definition := String.intercalate " | "
             (scrape_cambridge_info (st.usedWords.insert c) c (pv.infoResp c)).2 }]) := by
  refine ⟨create_quiz_item_eq_none, ?_, ?_, ?_, ?_, ?_, ?_⟩
  · rw [processCandidate_quizItems]
    rcases h : create_quiz_item tp c (processCandidate pv tp c st).2 with _ | q
    · simp [(create_quiz_item_eq_none tp c _).mp h]
    · have hne : (processCandidate pv tp c st).2 ≠ [] := by
        intro hnil
        rw [hnil] at h
        simp [create_quiz_item] at h
      simp only []
      constructor
      · intro hEq; exact absurd hEq (append_singleton_ne _ _)
      · intro hnil; exact absurd hnil hne
  · intro hne
    rcases h : create_quiz_item tp c (processCandidate pv tp c st).2 with _ | q
    · exact absurd ((create_quiz_item_eq_none tp c _).mp h) hne
    · exact ⟨q, rfl, by rw [processCandidate_quizItems, h]⟩
  · rw [processCandidate_thesaurusItems]
    by_cases hcond : (scrape_cambridge_thesaurus (pv.thesResp c)).1 ≠ [] ∨
        (scrape_cambridge_thesaurus (pv.thesResp c)).2 ≠ []
    · rw [if_pos hcond]
      constructor
      · intro hEq; exact absurd hEq (append_singleton_ne _ _)
      · intro hboth; exact absurd hcond (by simp [hboth.1, hboth.2])
    · rw [if_neg hcond]
      push_neg at hcond
      simp [hcond.1, hcond.2]
  · intro hne
    rw [processCandidate_thesaurusItems, if_pos (by tauto)]
  · rw [processCandidate_definitionsItems]
    by_cases hcond : (scrape_cambridge_info (st.usedWords.insert c) c (pv.infoResp c)).2 ≠ []
    · rw [if_pos hcond]
      constructor
      · intro hEq; exact absurd hEq (append_singleton_ne _ _)
      · intro hnil; exact absurd hnil hcond
    · rw [if_neg hcond]
      push_neg at hcond
      simp [hcond]
  · intro hne
    rw [processCandidate_definitionsItems, if_pos hne]

/-! ## Soft failure of the provider -/

/-- When both fetches for `c` fail, the loop body only marks the word
seen and logs it: no record is appended and no related word is
returned. -/
theorem processCandidate_fail (pv : Provider) (tp c : String)
    (st : TraversalState) (hi : pv.infoResp c = none)
    (ht : pv.thesResp c = none) :
    processCandidate pv tp c st =
      ({ st with usedWords := st.usedWords.insert c,
                 processedLog := st.processedLog ++ [(tp, c)] }, []) := by
  simp only [processCandidate, hi, ht, scrape_cambridge_info,
    scrape_cambridge_thesaurus]
  simp [create_quiz_item, List.insert_of_mem (List.mem_insert_self c st.usedWords)]

/-- C4: Soft-fail provider contract.  A failed request (`none` response,
covering transport exceptions and non-success statuses) makes both
lookup operations return empty lists, and so does missing markup (no
related-words container and no definition blocks; no synonym and no
antonym section).  In the traversal, a word whose both fetches fail is
still inserted into the seen set and still counted against the topic
budget (the continuation runs with counter `t + 1`), no record of any
kind is appended for it, and the loop continues.  Independently, the
quiz and definition results of an iteration depend only on the primary
fetch, and a failed thesaurus fetch leaves the thesaurus collection
untouched — it never discards the quiz and definition records of the
same word. -/
theorem c4_soft_fail_provider :
    (∀ (used : List String) (w : String),
        scrape_cambridge_info used w none = ([], [])) ∧
    (∀ (used : List String) (w : String),
        scrape_cambridge_info used w (some { daccord_lb := none, ddef_d := [] }) = ([], [])) ∧
    (scrape_cambridge_thesaurus none = ([], [])) ∧
    (scrape_cambridge_thesaurus (some { synItems := none, antItems := none }) = ([], [])) ∧
    (∀ (pv : Provider) (tp : String) (fuel : Nat) (c : String)
        (rest : List String) (t : Nat) (st : TraversalState),
        pv.infoResp c = none → pv.thesResp c = none →
        c ∉ st.usedWords → t < WORD_COUNT / 5 →
        topicLoop pv tp (fuel + 1) (c :: rest) t st =
          topicLoop pv tp fuel rest (t + 1)
            { st with usedWords := st.usedWords.insert c,
                      processedLog := st.processedLog ++ [(tp, c)] }) ∧
    (∀ (pv1 pv2 : Provider) (tp c : String) (st : TraversalState),
        pv1.infoResp c = pv2.infoResp c →
        (processCandidate pv1 tp c st).1.quizItems =
            (processCandidate pv2 tp c st).1.quizItems ∧
          (processCandidate pv1 tp c st).1.definitionsItems =
            (processCandidate pv2 tp c st).1.definitionsItems ∧
          (processCandidate pv1 tp c st).2 = (processCandidate pv2 tp c st).2) ∧
    (∀ (pv : Provider) (tp c : String) (st : TraversalState),
        pv.thesResp c = none →
        (processCandidate pv tp c st).1.thesaurusItems = st.thesaurusItems) := by
  refine ⟨fun _ _ => rfl, fun used w => ?_, rfl, rfl, ?_, ?_, ?_⟩
  · simp [scrape_cambridge_info]
  · intro pv tp fuel c rest t st hi ht hc hq
    rw [topicLoop_accept pv tp fuel t c rest st hq hc, processCandidate_fail pv tp c st hi ht]
    simp
  · intro pv1 pv2 tp c st h
    refine ⟨?_, ?_, ?_⟩ <;> simp only [processCandidate, h]
  · intro pv tp c st ht
    rw [processCandidate_thesaurusItems, ht]
    simp [scrape_cambridge_thesaurus]

def pvFail : Provider := { infoResp := fun _ => none, thesResp := fun _ => none }

/-- Witness for `c4_soft_fail_provider`: the loop-step conjunct and the
thesaurus-independence conjuncts applied at concrete inputs. -/
theorem c4_soft_fail_provider_witness :
    (pvFail.infoResp "zebra" = none) ∧ (pvFail.thesResp "zebra" = none) ∧
    ("zebra" ∉ emptyState.usedWords) ∧ (0 < WORD_COUNT / 5) ∧
    topicLoop pvFail "T" 3 ["zebra"] 0 emptyState =
      topicLoop pvFail "T" 2 [] 1
        { emptyState with usedWords := emptyState.usedWords.insert "zebra",
                          processedLog := emptyState.processedLog ++ [("T", "zebra")] } ∧
    (processCandidate pvFail "T" "zebra" emptyState).1.thesaurusItems =
      emptyState.thesaurusItems := by
  refine ⟨rfl, rfl, by decide, by decide, ?_, ?_⟩
  · exact (c4_soft_fail_provider.2.2.2.2.1) pvFail "T" 2 "zebra" [] 0 emptyState
      rfl rfl (by decide) (by decide)
  · exact (c4_soft_fail_provider.2.2.2.2.2.2) pvFail "T" "zebra" emptyState rfl

/-! ## BFS ordering -/

/-- A provider for the BFS scenario of the spec: the lookup for "a"
yields related word "c", the lookup for "b" yields "d", and every other
lookup fails; the thesaurus always fails. -/
def pvABCD : Provider :=
  { infoResp := fun w =>
      if w = "a" then some { daccord_lb := some [some (some "c")], ddef_d := [] }
      else if w = "b" then some { daccord_lb := some [some (some "d")], ddef_d := [] }
      else none
    thesResp := fun _ => none }

/-- C3: BFS ordering.  The frontier is consumed strictly FIFO — each
iteration pops the front element, a skipped word just shortens the
queue, and an accepted word continues with the rest of the queue
followed by the newly discovered words appended at the back.  In
particular, for a topic seeded with [a, b] where the lookup for a
yields [c], the lookup for b yields [d], and nothing else is reachable,
the processing order is exactly a, b, c, d. -/
theorem c3_bfs_ordering :
    (∀ (pv : Provider) (tp : String) (fuel t : Nat) (c : String)
        (rest : List String) (st : TraversalState),
        t < WORD_COUNT / 5 → c ∈ st.usedWords →
        topicLoop pv tp (fuel + 1) (c :: rest) t st =
          topicLoop pv tp fuel rest t st) ∧
    (∀ (pv : Provider) (tp : String) (fuel t : Nat) (c : String)
        (rest : List String) (st : TraversalState),
        t < WORD_COUNT / 5 → c ∉ st.usedWords →
        topicLoop pv tp (fuel + 1) (c :: rest) t st =
          topicLoop pv tp fuel (rest ++ (processCandidate pv tp c st).2) (t + 1)
            (processCandidate pv tp c st).1) ∧
    ((topicLoop pvABCD "T" 6 ["a", "b"] 0 emptyState).1.processedLog.map Prod.snd
        = ["a", "b", "c", "d"]) := by
  refine ⟨?_, ?_, by decide⟩
  · intro pv tp fuel t c rest st hq hc
    exact topicLoop_skip pv tp fuel t c rest st hq hc
  · intro pv tp fuel t c rest st hq hc
    exact topicLoop_accept pv tp fuel t c rest st hq hc

def stSeenW : TraversalState :=
  { usedWords := ["w"]
    quizItems := []
    thesaurusItems := []
    definitionsItems := []
    processedLog := []
    candidateWords := [] }

/-- Witness for `c3_bfs_ordering`: the skip equation at a state that has
already seen "w", and the accept equation at a fresh word "z". -/
theorem c3_bfs_ordering_witness :
    (0 < WORD_COUNT / 5) ∧ ("w" ∈ stSeenW.usedWords) ∧
    topicLoop pvFail "T" 2 ["w", "y"] 0 stSeenW = topicLoop pvFail "T" 1 ["y"] 0 stSeenW ∧
    ("z" ∉ stSeenW.usedWords) ∧
    topicLoop pvFail "T" 2 ["z"] 0 stSeenW =
      topicLoop pvFail "T" 1 ([] ++ (processCandidate pvFail "T" "z" stSeenW).2) 1
        (processCandidate pvFail "T" "z" stSeenW).1 := by
  refine ⟨by decide, by decide, ?_, by decide, ?_⟩
  · exact c3_bfs_ordering.1 pvFail "T" 1 0 "w" ["y"] stSeenW (by decide) (by decide)
  · exact c3_bfs_ordering.2.1 pvFail "T" 1 0 "z" [] stSeenW (by decide) (by decide)

/-! ## No within-batch deduplication of related words -/

/-- A provider whose page for "w" lists the same unseen word "x" twice;
everything else fails. -/
def pvDup : Provider :=
  { infoResp := fun w =>
      if w = "w" then
        some { daccord_lb := some [some (some "x"), some (some "x")], ddef_d := [] }
      else none
    thesResp := fun _ => none }

def dupPage : InfoPage :=
  { daccord_lb := some [some (some "x"), some (some "x")], ddef_d := [] }

/-- C10: No within-batch deduplication.  `new_related` is exactly the
related list of the scrape filtered by non-membership in the seen set at
that moment, preserving order and multiplicity (the count of every word
outside the set is unchanged by the filter, and a word in the set is
removed entirely).  Concretely, a primary-lookup result listing the
unseen word "x" twice yields `new_related = ["x", "x"]`, so "x" is
enqueued twice; the later seen-set check collapses the two queue entries
into a single processing ("w" then "x" exactly once in the log); and
the duplicate appears twice among the five quiz options, coinciding with
the correct answer in option 1, while the padding to five options acts
on a copied slice and leaves `new_related` itself untouched (its both
entries reach the frontier). -/
theorem c10_no_batch_dedup :
    (∀ (pv : Provider) (tp c : String) (st : TraversalState),
        (processCandidate pv tp c st).2 =
          (scrape_cambridge_info (st.usedWords.insert c) c (pv.infoResp c)).1.filter
            (fun w => w ∉ st.usedWords.insert c)) ∧
    (∀ (pv : Provider) (tp c : String) (st : TraversalState) (x : String),
        ((processCandidate pv tp c st).2).count x =
          if x ∈ st.usedWords.insert c then 0
          else ((scrape_cambridge_info (st.usedWords.insert c) c (pv.infoResp c)).1).count x) ∧
    ((scrape_cambridge_info ["w"] "w" (some dupPage)).1 = ["x", "x"]) ∧
    ((processCandidate pvDup "T" "w" emptyState).2 = ["x", "x"]) ∧
    ((topicLoop pvDup "T" 4 ["w"] 0 emptyState).1.processedLog.map Prod.snd
        = ["w", "x"]) ∧
    ((topicLoop pvDup "T" 4 ["w"] 0 emptyState).1.quizItems.map
        (fun q => (q.option1, q.option2, q.option3, q.option4, q.option5, q.correctAnswer))
      = [("x", "x", "", "", "", "1")]) := by
  refine ⟨processCandidate_newRelated, ?_, by decide, by decide, by decide, by decide⟩
  intro pv tp c st x
  rw [processCandidate_newRelated]
  by_cases hx : x ∈ st.usedWords.insert c
  · rw [if_pos hx]
    refine List.count_eq_zero.mpr ?_
    intro hmem
    have := List.mem_filter.mp hmem
    rw [decide_eq_true_eq] at this
    exact this.2 hx
  · rw [if_neg hx]
    exact List.count_filter (by simp [hx])

/-! ## Budget respect -/

/-- The per-topic counter never exceeds the quota `WORD_COUNT / 5`. -/
theorem topicLoop_counter_le (pv : Provider) (tp : String) :
    ∀ (fuel : Nat) (q : List String) (t : Nat) (st : TraversalState),
      t ≤ WORD_COUNT / 5 → (topicLoop pv tp fuel q t st).2 ≤ WORD_COUNT / 5 := by
  intro fuel
  induction fuel with
  | zero => intro q t st ht; exact ht
  | succ fuel ih =>
    intro q t st ht
    cases q with
    | nil => rw [topicLoop_nil]; exact ht
    | cons c rest =>
      by_cases hq : t < WORD_COUNT / 5
      · by_cases hc : c ∈ st.usedWords
        · rw [topicLoop_skip pv tp fuel t c rest st hq hc]
          exact ih rest t st ht
        · rw [topicLoop_accept pv tp fuel t c rest st hq hc]
          exact ih _ _ _ (by omega)
      · rw [topicLoop_stop pv tp fuel t (c :: rest) st hq]
        exact ht

/-- One topic run appends to the log only entries labelled with that
topic, and exactly as many of them as the counter gained. -/
theorem topicLoop_log (pv : Provider) (tp : String) :
    ∀ (fuel : Nat) (q : List String) (t : Nat) (st : TraversalState),
      ∃ ext : List (String × String),
        (topicLoop pv tp fuel q t st).1.processedLog = st.processedLog ++ ext ∧
        (∀ p ∈ ext, p.1 = tp) ∧
        ext.length + t = (topicLoop pv tp fuel q t st).2 := by
  intro fuel
  induction fuel with
  | zero =>
    intro q t st
    exact ⟨[], by rw [topicLoop_zero]; simp, by simp, by rw [topicLoop_zero]; simp⟩
  | succ fuel ih =>
    intro q t st
    cases q with
    | nil => rw [topicLoop_nil]; exact ⟨[], by simp, by simp, by simp⟩
    | cons c rest =>
      by_cases hq : t < WORD_COUNT / 5
      · by_cases hc : c ∈ st.usedWords
        · rw [topicLoop_skip pv tp fuel t c rest st hq hc]
          exact ih rest t st
        · rw [topicLoop_accept pv tp fuel t c rest st hq hc]
          obtain ⟨ext, hlog, hlabel, hlen⟩ :=
            ih (rest ++ (processCandidate pv tp c st).2) (t + 1)
              (processCandidate pv tp c st).1
          refine ⟨(tp, c) :: ext, ?_, ?_, ?_⟩
          · rw [hlog, processCandidate_processedLog, List.append_assoc]
            rfl
          · intro p hp
            rcases List.mem_cons.mp hp with h | h
            · rw [h]
            · exact hlabel p h
          · simp only [List.length_cons]
            omega
      · rw [topicLoop_stop pv tp fuel t (c :: rest) st hq]
        exact ⟨[], by simp, by simp, by simp⟩

/-- The number of words processed under topic `tp`, read off the log. -/
def processedCount (tp : String) (st : TraversalState) : Nat :=
  (st.processedLog.filter (fun p => p.1 = tp)).length

theorem processedCount_runTopic (pv : Provider) (fuel : Nat)
    (st : TraversalState) (tp T : String) :
    processedCount T (runTopic pv fuel st tp) ≤
      processedCount T st + (if tp = T then WORD_COUNT / 5 else 0) := by
  unfold runTopic processedCount
  obtain ⟨ext, hlog, hlabel, hlen⟩ :=
    topicLoop_log pv tp fuel ((st.candidateWords.lookup tp).getD []) 0 st
  rw [hlog, List.filter_append, List.length_append]
  have hcount := topicLoop_counter_le pv tp fuel
    ((st.candidateWords.lookup tp).getD []) 0 st (by omega)
  by_cases htp : tp = T
  · rw [if_pos htp]
    have : (ext.filter (fun p => p.1 = T)).length ≤ ext.length :=
      List.length_filter_le _ ext
    omega
  · rw [if_neg htp]
    have : (ext.filter (fun p => p.1 = T)).length = 0 := by
      rw [List.length_eq_zero, List.filter_eq_nil_iff]
      intro p hp
      simp only [decide_eq_true_eq]
      rw [hlabel p hp]
      exact htp
    omega

theorem processedCount_foldl (pv : Provider) (fuel : Nat) (T : String) :
    ∀ (ts : List String) (st : TraversalState),
      processedCount T (ts.foldl (runTopic pv fuel) st) ≤
        processedCount T st + (WORD_COUNT / 5) * (ts.count T) := by
  intro ts
  induction ts with
  | nil => intro st; simp
  | cons tp ts ih =>
    intro st
    rw [List.foldl_cons]
    have h1 := ih (runTopic pv fuel st tp)
    have h2 := processedCount_runTopic pv fuel st tp T
    have hc : (tp :: ts).count T = ts.count T + (if tp = T then 1 else 0) := by
      rw [List.count_cons]
      simp
    rw [hc, Nat.mul_add]
    by_cases htp : tp = T
    · rw [if_pos htp] at h2
      rw [if_pos htp]
      omega
    · rw [if_neg htp] at h2
      rw [if_neg htp]
      omega

/-- C2: Budget respect.  The quota is the integer `WORD_COUNT / 5 =
floor(10000 / 5) = 2000` (in the script the guard compares against the
true-division value `2000.0`, which coincides since 5 divides 10000).
For every provider and every fuel, the number of words processed under
any topic in a whole run from the initial state never exceeds the quota;
a topic loop entered with the counter already at the quota stops at once
and processes nothing, whatever its frontier holds; and a popped word
that is already seen is skipped without counting against the budget. -/
theorem c2_budget_respect :
    (WORD_COUNT / 5 = 2000) ∧
    (∀ (pv : Provider) (fuel : Nat) (T : String),
        processedCount T (runAll pv fuel initialState) ≤ WORD_COUNT / 5) ∧
    (∀ (pv : Provider) (tp : String) (fuel : Nat) (q : List String)
        (st : TraversalState),
        topicLoop pv tp (fuel + 1) q (WORD_COUNT / 5) st = (st, WORD_COUNT / 5)) ∧
    (∀ (pv : Provider) (tp : String) (fuel t : Nat) (c : String)
        (rest : List String) (st : TraversalState),
        t < WORD_COUNT / 5 → c ∈ st.usedWords →
        topicLoop pv tp (fuel + 1) (c :: rest) t st =
          topicLoop pv tp fuel rest t st) := by
  refine ⟨rfl, ?_, ?_, ?_⟩
  · intro pv fuel T
    have h := processedCount_foldl pv fuel T topics initialState
    have hzero : processedCount T initialState = 0 := rfl
    have hnodup : topics.Nodup := by decide
    have hcount : topics.count T ≤ 1 := List.nodup_iff_count_le_one.mp hnodup T
    have : WORD_COUNT / 5 * topics.count T ≤ WORD_COUNT / 5 * 1 :=
      Nat.mul_le_mul_left _ hcount
    unfold runAll
    omega
  · intro pv tp fuel q st
    exact topicLoop_stop pv tp fuel (WORD_COUNT / 5) q st (by omega)
  · intro pv tp fuel t c rest st hq hc
    exact topicLoop_skip pv tp fuel t c rest st hq hc

/-- Witness for `c2_budget_respect`: the whole-run bound for topic
"Social Issues" at fuel 0, the immediate stop at the quota on a
non-empty frontier, and the skip of an already-seen word. -/
theorem c2_budget_respect_witness :
    processedCount "Social Issues" (runAll pvFail 0 initialState) ≤ WORD_COUNT / 5 ∧
    topicLoop pvFail "T" 1 ["leftover"] (WORD_COUNT / 5) stSeenW =
      (stSeenW, WORD_COUNT / 5) ∧
    (0 < WORD_COUNT / 5) ∧ ("w" ∈ stSeenW.usedWords) ∧
    topicLoop pvFail "T" 4 ["w", "y"] 0 stSeenW =
      topicLoop pvFail "T" 3 ["y"] 0 stSeenW := by
  refine ⟨c2_budget_respect.2.1 pvFail 0 "Social Issues",
    c2_budget_respect.2.2.1 pvFail "T" 0 ["leftover"] stSeenW,
    by decide, by decide,
    c2_budget_respect.2.2.2 pvFail "T" 3 0 "w" ["y"] stSeenW (by decide) (by decide)⟩

/-! ## Global deduplication -/

theorem nodup_append_singleton {α : Type} (l : List α) (x : α)
    (hl : l.Nodup) (hx : x ∉ l) : (l ++ [x]).Nodup := by
  simp [List.nodup_append, hl, hx]

theorem question_text_inj (w w' : String)
    (h : question_text w = question_text w') : w = w' := by
  have h2 := congrArg String.data h
  simp only [question_text, String.data_append] at h2
  have h3 : w.data = w'.data :=
    List.append_cancel_left (List.append_cancel_right h2)
  cases w
  cases w'
  exact congrArg String.mk h3

theorem create_quiz_item_questionText (t w : String) (l : List String)
    (q : QuizItem) (h : create_quiz_item t w l = some q) :
    q.questionText = question_text w := by
  cases l with
  | nil => simp [create_quiz_item] at h
  | cons r rs =>
    simp only [create_quiz_item] at h
    injection h with h
    rw [← h]

/-- The loop invariant behind global deduplication: the seen set has no
duplicates; its membership coincides with the set of logged (processed)
words; the log has no duplicated word; and the word lists of the three
record collections are duplicate-free, with every recorded word (for
quiz items, the word embedded in the question text) already seen. -/
def LoopInv (st : TraversalState) : Prop :=
  st.usedWords.Nodup ∧
  (∀ w, w ∈ st.usedWords ↔ w ∈ st.processedLog.map Prod.snd) ∧
  (st.processedLog.map Prod.snd).Nodup ∧
  (st.quizItems.map QuizItem.questionText).Nodup ∧
  (∀ s ∈ st.quizItems.map QuizItem.questionText, ∃ w ∈ st.usedWords, s = question_text w) ∧
  (st.thesaurusItems.map ThesaurusItem.word).Nodup ∧
  (∀ w ∈ st.thesaurusItems.map ThesaurusItem.word, w ∈ st.usedWords) ∧
  (st.definitionsItems.map DefinitionItem.word).Nodup ∧
  (∀ w ∈ st.definitionsItems.map DefinitionItem.word, w ∈ st.usedWords)

theorem inv_processCandidate (pv : Provider) (tp c : String)
    (st : TraversalState) (hc : c ∉ st.usedWords) (h : LoopInv st) :
    LoopInv (processCandidate pv tp c st).1 := by
  obtain ⟨hN, hIff, hLog, hQN, hQW, hTN, hTW, hDN, hDW⟩ := h
  have hused := processCandidate_usedWords pv tp c st
  have hlog := processCandidate_processedLog pv tp c st
  have hcLog : c ∉ st.processedLog.map Prod.snd := fun hmem => hc ((hIff c).mpr hmem)
  have hmemUsed : ∀ w, w ∈ (processCandidate pv tp c st).1.usedWords ↔
      w = c ∨ w ∈ st.usedWords := by
    intro w
    rw [hused]
    exact List.mem_insert_iff
  have hlogMem : ∀ w, w ∈ (processCandidate pv tp c st).1.processedLog.map Prod.snd ↔
      w ∈ st.processedLog.map Prod.snd ∨ w = c := by
    intro w
    rw [hlog, List.map_append]
    simp
  have part1 : (processCandidate pv tp c st).1.usedWords.Nodup := by
    rw [hused]
    exact hN.insert
  have part2 : ∀ w, w ∈ (processCandidate pv tp c st).1.usedWords ↔
      w ∈ (processCandidate pv tp c st).1.processedLog.map Prod.snd := by
    intro w
    rw [hmemUsed w, hlogMem w, hIff w]
    tauto
  have part3 : ((processCandidate pv tp c st).1.processedLog.map Prod.snd).Nodup := by
    rw [hlog, List.map_append]
    have := nodup_append_singleton _ c hLog hcLog
    simpa using this
  have husedUp : ∀ w, w ∈ st.usedWords → w ∈ (processCandidate pv tp c st).1.usedWords :=
    fun w hw => (hmemUsed w).mpr (Or.inr hw)
  have hcUsed : c ∈ (processCandidate pv tp c st).1.usedWords :=
    (hmemUsed c).mpr (Or.inl rfl)
  -- quiz items
  have partQ : ((processCandidate pv tp c st).1.quizItems.map QuizItem.questionText).Nodup ∧
      ∀ s ∈ (processCandidate pv tp c st).1.quizItems.map QuizItem.questionText,
        ∃ w ∈ (processCandidate pv tp c st).1.usedWords, s = question_text w := by
    rcases hq : create_quiz_item tp c (processCandidate pv tp c st).2 with _ | q
    · have heq : (processCandidate pv tp c st).1.quizItems = st.quizItems := by
        rw [processCandidate_quizItems, hq]
      rw [heq]
      exact ⟨hQN, fun s hs => by
        obtain ⟨w, hw, he⟩ := hQW s hs
        exact ⟨w, husedUp w hw, he⟩⟩
    · have heq : (processCandidate pv tp c st).1.quizItems = st.quizItems ++ [q] := by
        rw [processCandidate_quizItems, hq]
      have hqt : q.questionText = question_text c :=
        create_quiz_item_questionText tp c _ q hq
      have hnotin : question_text c ∉ st.quizItems.map QuizItem.questionText := by
        intro hmem
        obtain ⟨w, hw, he⟩ := hQW _ hmem
        exact hc (question_text_inj c w he ▸ hw)
      constructor
      · rw [heq, List.map_append]
        have := nodup_append_singleton _ (question_text c) hQN hnotin
        simpa [hqt] using this
      · intro s hs
        rw [heq, List.map_append] at hs
        rcases List.mem_append.mp hs with hs | hs
        · obtain ⟨w, hw, he⟩ := hQW s hs
          exact ⟨w, husedUp w hw, he⟩
        · have : s = question_text c := by simpa [hqt] using hs
          exact ⟨c, hcUsed, this⟩
  -- thesaurus items
  have partT : ((processCandidate pv tp c st).1.thesaurusItems.map ThesaurusItem.word).Nodup ∧
      ∀ w ∈ (processCandidate pv tp c st).1.thesaurusItems.map ThesaurusItem.word,
        w ∈ (processCandidate pv tp c st).1.usedWords := by
    rw [processCandidate_thesaurusItems]
    split
    · have hnotin : c ∉ st.thesaurusItems.map ThesaurusItem.word :=
        fun hmem => hc (hTW c hmem)
      constructor
      · rw [List.map_append]
        have := nodup_append_singleton _ c hTN hnotin
        simpa using this
      · intro w hw
        rw [List.map_append] at hw
        rcases List.mem_append.mp hw with hw | hw
        · exact husedUp w (hTW w hw)
        · have : w = c := by simpa using hw
          exact this ▸ hcUsed
    · exact ⟨hTN, fun w hw => husedUp w (hTW w hw)⟩
  -- definition items
  have partD : ((processCandidate pv tp c st).1.definitionsItems.map DefinitionItem.word).Nodup ∧
      ∀ w ∈ (processCandidate pv tp c st).1.definitionsItems.map DefinitionItem.word,
        w ∈ (processCandidate pv tp c st).1.usedWords := by
    rw [processCandidate_definitionsItems]
    split
    · have hnotin : c ∉ st.definitionsItems.map DefinitionItem.word :=
        fun hmem => hc (hDW c hmem)
      constructor
      · rw [List.map_append]
        have := nodup_append_singleton _ c hDN hnotin
        simpa using this
      · intro w hw
        rw [List.map_append] at hw
        rcases List.mem_append.mp hw with hw | hw
        · exact husedUp w (hDW w hw)
        · have : w = c := by simpa using hw
          exact this ▸ hcUsed
    · exact ⟨hDN, fun w hw => husedUp w (hDW w hw)⟩
  exact ⟨part1, part2, part3, partQ.1, partQ.2, partT.1, partT.2, partD.1, partD.2⟩

theorem inv_topicLoop (pv : Provider) (tp : String) :
    ∀ (fuel : Nat) (q : List String) (t : Nat) (st : TraversalState),
      LoopInv st → LoopInv (topicLoop pv tp fuel q t st).1 := by
  intro fuel
  induction fuel with
  | zero => intro q t st h; exact h
  | succ fuel ih =>
    intro q t st h
    cases q with
    | nil => rw [topicLoop_nil]; exact h
    | cons c rest =>
      by_cases hq : t < WORD_COUNT / 5
      · by_cases hc : c ∈ st.usedWords
        · rw [topicLoop_skip pv tp fuel t c rest st hq hc]
          exact ih rest t st h
        · rw [topicLoop_accept pv tp fuel t c rest st hq hc]
          exact ih _ _ _ (inv_processCandidate pv tp c st hc h)
      · rw [topicLoop_stop pv tp fuel t (c :: rest) st hq]
        exact h

theorem inv_foldl (pv : Provider) (fuel : Nat) :
    ∀ (ts : List String) (st : TraversalState),
      LoopInv st → LoopInv (ts.foldl (runTopic pv fuel) st) := by
  intro ts
  induction ts with
  | nil => intro st h; exact h
  | cons tp ts ih =>
    intro st h
    rw [List.foldl_cons]
    exact ih _ (inv_topicLoop pv tp fuel _ 0 st h)

theorem inv_initialState : LoopInv initialState := by
  refine ⟨List.nodup_nil, ?_, ?_, ?_, ?_, ?_, ?_, ?_, ?_⟩ <;> simp [initialState]

/-- C1: Global deduplication.  In a whole run from the initial state,
for every provider and every fuel: the Global Seen Set holds no word
twice; a word is in the set exactly when it was popped and accepted for
processing (one log entry per accepted pop); no word is processed twice;
a popped word that is already seen is discarded — the state is untouched
and the loop merely continues on the rest of the queue; and no two
QuizRecords (whose question texts embed the word injectively), no two
ThesaurusRecords and no two DefinitionRecords describe the same word,
across all topics of the run. -/
theorem c1_global_dedup (pv : Provider) (fuel : Nat) :
    (runAll pv fuel initialState).usedWords.Nodup ∧
    (∀ w, w ∈ (runAll pv fuel initialState).usedWords ↔
        w ∈ (runAll pv fuel initialState).processedLog.map Prod.snd) ∧
    ((runAll pv fuel initialState).processedLog.map Prod.snd).Nodup ∧
    (∀ w w', question_text w = question_text w' → w = w') ∧
    ((runAll pv fuel initialState).quizItems.map QuizItem.questionText).Nodup ∧
    ((runAll pv fuel initialState).thesaurusItems.map ThesaurusItem.word).Nodup ∧
    ((runAll pv fuel initialState).definitionsItems.map DefinitionItem.word).Nodup ∧
    (∀ (tp : String) (f t : Nat) (c : String) (rest : List String)
        (st : TraversalState), t < WORD_COUNT / 5 → c ∈ st.usedWords →
        topicLoop pv tp (f + 1) (c :: rest) t st = topicLoop pv tp f rest t st) := by
  have h : LoopInv (runAll pv fuel initialState) :=
    inv_foldl pv fuel topics initialState inv_initialState
  obtain ⟨h1, h2, h3, h4, _, h6, _, h8, _⟩ := h
  exact ⟨h1, h2, h3, question_text_inj, h4, h6, h8,
    fun tp f t c rest st hq hc => topicLoop_skip pv tp f t c rest st hq hc⟩

/-- Witness for `c1_global_dedup`: the injectivity conjunct and the
skip conjunct applied at concrete inputs. -/
theorem c1_global_dedup_witness :
    (question_text "cat" = question_text "cat") ∧ ("cat" : String) = "cat" ∧
    (0 < WORD_COUNT / 5) ∧ ("w" ∈ stSeenW.usedWords) ∧
    topicLoop pvFail "U" 2 ["w"] 0 stSeenW = topicLoop pvFail "U" 1 [] 0 stSeenW := by
  refine ⟨rfl, (c1_global_dedup pvFail 0).2.2.2.1 "cat" "cat" rfl, by decide, by decide, ?_⟩
  exact (c1_global_dedup pvFail 0).2.2.2.2.2.2.2 "U" 1 0 "w" [] stSeenW
    (by decide) (by decide)

/-! ## Termination -/

/-- Fuel stabilization for one topic loop, for an arbitrary provider:
there is a fuel amount `N` (depending on the provider, queue, counter
and state) past which extra fuel does not change the result — the loop
has reached its natural end (queue empty or quota hit).  No bound on
the size of the provider responses is needed: the proof is a
lexicographic induction on `(quota - t, queue length)` — each iteration
removes one frontier element, a skip keeps the counter and shortens the
queue, and an accepted step (the only way the queue can grow, by the
finitely many words of that one response) raises the counter, which is
capped by the quota. -/
theorem topicLoop_stable_ex (pv : Provider) (tp : String) :
    ∀ (k n : Nat) (q : List String) (t : Nat) (st : TraversalState),
      WORD_COUNT / 5 - t ≤ k → q.length ≤ n →
      ∃ N, ∀ f, N ≤ f → topicLoop pv tp f q t st = topicLoop pv tp N q t st := by
  intro k
  induction k with
  | zero =>
    intro n q t st hk hn
    refine ⟨1, ?_⟩
    intro f hf
    obtain ⟨f2, rfl⟩ : ∃ f2, f = f2 + 1 := ⟨f - 1, by omega⟩
    cases q with
    | nil => rw [topicLoop_nil, topicLoop_nil]
    | cons c rest =>
      have hq : ¬ t < WORD_COUNT / 5 := by omega
      rw [topicLoop_stop pv tp f2 t (c :: rest) st hq,
          topicLoop_stop pv tp 0 t (c :: rest) st hq]
  | succ k ihk =>
    intro n
    induction n with
    | zero =>
      intro q t st hk hn
      have hq : q = [] := List.length_eq_zero.mp (by omega)
      subst hq
      refine ⟨0, ?_⟩
      intro f hf
      rw [topicLoop_nil, topicLoop_zero]
    | succ n ihn =>
      intro q t st hk hn
      cases q with
      | nil =>
        refine ⟨0, ?_⟩
        intro f hf
        rw [topicLoop_nil, topicLoop_zero]
      | cons c rest =>
        by_cases hq : t < WORD_COUNT / 5
        · by_cases hc : c ∈ st.usedWords
          · obtain ⟨N, hN⟩ := ihn rest t st hk
              (by simp only [List.length_cons] at hn; omega)
            refine ⟨N + 1, ?_⟩
            intro f hf
            obtain ⟨f2, rfl⟩ : ∃ f2, f = f2 + 1 := ⟨f - 1, by omega⟩
            rw [topicLoop_skip pv tp f2 t c rest st hq hc,
                topicLoop_skip pv tp N t c rest st hq hc]
            exact hN f2 (by omega)
          · obtain ⟨N, hN⟩ := ihk (rest ++ (processCandidate pv tp c st).2).length
              (rest ++ (processCandidate pv tp c st).2) (t + 1)
              (processCandidate pv tp c st).1 (by omega) le_rfl
            refine ⟨N + 1, ?_⟩
            intro f hf
            obtain ⟨f2, rfl⟩ : ∃ f2, f = f2 + 1 := ⟨f - 1, by omega⟩
            rw [topicLoop_accept pv tp f2 t c rest st hq hc,
                topicLoop_accept pv tp N t c rest st hq hc]
            exact hN f2 (by omega)
        · refine ⟨1, ?_⟩
          intro f hf
          obtain ⟨f2, rfl⟩ : ∃ f2, f = f2 + 1 := ⟨f - 1, by omega⟩
          rw [topicLoop_stop pv tp f2 t (c :: rest) st hq,
              topicLoop_stop pv tp 0 t (c :: rest) st hq]

theorem runTopic_stable_ex (pv : Provider) (st : TraversalState) (tp : String) :
    ∃ N, ∀ f, N ≤ f → runTopic pv f st tp = runTopic pv N st tp := by
  obtain ⟨N, hN⟩ := topicLoop_stable_ex pv tp (WORD_COUNT / 5 - 0)
    ((st.candidateWords.lookup tp).getD []).length
    ((st.candidateWords.lookup tp).getD []) 0 st le_rfl le_rfl
  refine ⟨N, ?_⟩
  intro f hf
  unfold runTopic
  show (topicLoop pv tp f ((st.candidateWords.lookup tp).getD []) 0 st).1 =
    (topicLoop pv tp N ((st.candidateWords.lookup tp).getD []) 0 st).1
  rw [hN f hf]

/-- Stabilization of the whole topic fold: a common fuel amount past
which the final state no longer depends on the fuel, obtained topic by
topic (the stable state after one topic feeds the next). -/
theorem foldl_stable_ex (pv : Provider) :
    ∀ (ts : List String) (st : TraversalState),
      ∃ N, ∀ f g, N ≤ f → N ≤ g →
        ts.foldl (runTopic pv f) st = ts.foldl (runTopic pv g) st := by
  intro ts
  induction ts with
  | nil => intro st; exact ⟨0, fun f g _ _ => rfl⟩
  | cons tp ts ih =>
    intro st
    obtain ⟨N1, hN1⟩ := runTopic_stable_ex pv st tp
    obtain ⟨N2, hN2⟩ := ih (runTopic pv N1 st tp)
    refine ⟨max N1 N2, ?_⟩
    intro f g hf hg
    rw [List.foldl_cons, List.foldl_cons]
    have hfe : runTopic pv f st tp = runTopic pv N1 st tp :=
      hN1 f (le_trans (le_max_left _ _) hf)
    have hge : runTopic pv g st tp = runTopic pv N1 st tp :=
      hN1 g (le_trans (le_max_left _ _) hg)
    rw [hfe, hge]
    exact hN2 f g (le_trans (le_max_right _ _) hf) (le_trans (le_max_right _ _) hg)

/-- C8: Termination.  For every provider — adversarial included: each
call returns a finite list, but no uniform bound across calls is
assumed — each topic loop reaches a stable result at some finite fuel:
past it, extra fuel changes nothing, because each iteration removes one
frontier element, words are appended only on accepted steps, and
accepted steps are capped by the topic quota, so the frontier eventually
empties or the quota is hit (lexicographic measure `(quota - t, queue
length)`).  Consequently the whole traversal from the initial state is
stable past some finite fuel as well. -/
theorem c8_termination :
    (∀ (pv : Provider) (tp : String) (q : List String) (t : Nat)
        (st : TraversalState),
      ∃ N, ∀ f, N ≤ f →
        topicLoop pv tp f q t st = topicLoop pv tp N q t st) ∧
    (∀ pv : Provider, ∃ N, ∀ f, N ≤ f →
        runAll pv f initialState = runAll pv N initialState) := by
  constructor
  · intro pv tp q t st
    exact topicLoop_stable_ex pv tp (WORD_COUNT / 5 - t) q.length q t st le_rfl le_rfl
  · intro pv
    obtain ⟨N, hN⟩ := foldl_stable_ex pv topics initialState
    refine ⟨N, ?_⟩
    intro f hf
    unfold runAll
    exact hN f N hf le_rfl

/-- Witness for `c8_termination`: both conjuncts applied at a concrete
provider, topic, queue and state, then instantiated one past the
stabilization point (discharging the `N ≤ f` hypothesis at `f = N + 1`). -/
theorem c8_termination_witness :
    (∃ N, topicLoop pvFail "T" (N + 1) ["a"] 0 emptyState =
        topicLoop pvFail "T" N ["a"] 0 emptyState) ∧
    (∃ N, runAll pvFail (N + 1) initialState = runAll pvFail N initialState) := by
  constructor
  · obtain ⟨N, hN⟩ := c8_termination.1 pvFail "T" ["a"] 0 emptyState
    exact ⟨N, hN (N + 1) (by omega)⟩
  · obtain ⟨N, hN⟩ := c8_termination.2 pvFail
    exact ⟨N, hN (N + 1) (by omega)⟩

/-- A provider with non-empty data of every kind for word "w". -/
def pvRich : Provider :=
  { infoResp := fun w =>
      if w = "w" then
        some { daccord_lb := some [some (some "r")], ddef_d := ["d1", "d2"] }
      else none
    thesResp := fun w =>
      if w = "w" then
        some { synItems := some [some (some "s")], antItems := none }
      else none }

/-- Witness for `c6_record_omission_and_joining`: at word "w" under
`pvRich` the related, synonym and definition data are non-empty, so all
three record kinds are appended. -/
theorem c6_record_omission_and_joining_witness :
    ((processCandidate pvRich "T" "w" emptyState).2 ≠ []) ∧
    (∃ q, create_quiz_item "T" "w" (processCandidate pvRich "T" "w" emptyState).2 = some q ∧
      (processCandidate pvRich "T" "w" emptyState).1.quizItems =
        emptyState.quizItems ++ [q]) ∧
    (¬ ((scrape_cambridge_thesaurus (pvRich.thesResp "w")).1 = [] ∧
        (scrape_cambridge_thesaurus (pvRich.thesResp "w")).2 = [])) ∧
    ((processCandidate pvRich "T" "w" emptyState).1.thesaurusItems =
      emptyState.thesaurusItems ++
        [{ word := "w", topic := "T",
           synonyms := String.intercalate ", " (scrape_cambridge_thesaurus (pvRich.thesResp "w")).1,
           antonyms := String.intercalate ", " (scrape_cambridge_thesaurus (pvRich.thesResp "w")).2 }]) ∧
    ((scrape_cambridge_info (emptyState.usedWords.insert "w") "w" (pvRich.infoResp "w")).2 ≠ []) ∧
    ((processCandidate pvRich "T" "w" emptyState).1.definitionsItems =
      emptyState.definitionsItems ++
        [{ word := "w", topic := "T",
           definition := String.intercalate " | "
             (scrape_cambridge_info (emptyState.usedWords.insert "w") "w" (pvRich.infoResp "w")).2 }]) := by
  refine ⟨by decide,
    (c6_record_omission_and_joining pvRich "T" "w" emptyState).2.2.1 (by decide),
    by decide,
    (c6_record_omission_and_joining pvRich "T" "w" emptyState).2.2.2.2.1 (by decide),
    by decide,
    (c6_record_omission_and_joining pvRich "T" "w" emptyState).2.2.2.2.2.2 (by decide)⟩
